import Mathlib

/-!
Verification of the EVM-to-AVM translation backend
(`src/arbitrum/evm/compile.py`).

The development shallowly embeds the compiler:

* decoded source instructions (`pyevmasm` output and `AVMOp` pseudo-ops)
  become the structure `Instr`;
* the target machine values that the emitted code manipulates become
  `AVMValue` (integers, code labels, and the empty composite produced by
  `tnewn`, whose zero-arity form is the "not found" sentinel);
* the operations that the code-emission context (`vm`) appends become the
  deep syntax `AOp`; operations whose semantics live in external
  collaborators (`os.*`, `execution.*`, `stack_manip.*`, arithmetic
  primitives) are recorded as opaque `AOp.ext` nodes;
* `exec` interprets emitted code on an explicit stack, returning `none`
  where the real machine would fault on a stack of the wrong shape and
  giving no semantics to the opaque external operations.

Every definition is translated from the Python source; definitions whose
doc comment says "as the spec words it" are spec-side definitions used
only to compare a claim against the code.
-/

/-- One decoded source instruction: mnemonic, raw opcode byte, optional
push operand, and program counter, mirroring the fields of a `pyevmasm`
instruction that `compile.py` reads.  Pseudo-instructions built by
`AVMOp(name)` are modelled with opcode 0, no operand and pc 0. -/
structure Instr where
  name : String
  opcode : Nat
  operand : Option Nat
  pc : Nat
deriving DecidableEq, Repr

instance : Inhabited Instr := ⟨⟨"", 0, none, 0⟩⟩

/-- The pseudo-instruction constructor `AVMOp(name)` from `..vm`, as used
by `replace_self_balance`. -/
def AVMOp (name : String) : Instr := ⟨name, 0, none, 0⟩

/-- A target-machine label.  The source builds labels from strings
(`contract_entry_<id>` and `jumpdest_<contractId>_<pc>`); since that
encoding is injective, the labels are modelled by an inductive with the
same two shapes. -/
inductive AVMLabel where
  | contractEntry (cid : Nat)
  | jumpdest (cid : Nat) (pc : Nat)
deriving DecidableEq, Repr

/-- A target-machine value as far as the translated code observes it:
an unbounded integer, a code point (label), or a composite of the given
arity built by `tnewn`.  `tuple 0` is the "not found" sentinel that
`handle_bad_jump` pushes. -/
inductive AVMValue where
  | int (n : Nat)
  | codePoint (l : AVMLabel)
  | tuple (arity : Nat)
deriving DecidableEq, Repr

/-- One operation appended to the code-emission context.  Each constructor
is one `vm.*` method used by `compile.py`; `ifelse` carries its two branch
blocks (a one-armed `vm.ifelse(t)` is modelled with an empty else branch);
`ext fname args` records a call into an external collaborator
(`os.*`, `execution.*`, `stack_manip.*`, or an arithmetic primitive of the
target machine) together with the integer arguments the compiler passes. -/
inductive AOp where
  | push (v : AVMValue)
  | dup0
  | dup1
  | dup2
  | lt
  | gt
  | eq
  | pop
  | tnewn (arity : Nat)
  | ifelse (tb : List AOp) (fb : List AOp)
  | halt
  | jump
  | cjump
  | setLabel (l : AVMLabel)
  | ext (fname : String) (args : List Int)
deriving Repr

/-- Outcome of running one emitted block: fall through to the next block
with the given stack, stop the machine (`vm.halt`), or transfer control to
a code point (`vm.jump` / taken `vm.cjump`). -/
inductive ExecResult where
  | next (stack : List AVMValue)
  | halted (stack : List AVMValue)
  | jumped (l : AVMLabel) (stack : List AVMValue)
deriving DecidableEq, Repr

-- Size measure for termination of the interpreter: an `ifelse` counts
-- itself plus its branches.
mutual

def AOp.size : AOp → Nat
  | .ifelse tb fb => 1 + AOp.sizeList tb + AOp.sizeList fb
  | _ => 1

def AOp.sizeList : List AOp → Nat
  | [] => 0
  | op :: rest => AOp.size op + AOp.sizeList rest

end

theorem AOp.sizeList_append (l1 l2 : List AOp) :
    AOp.sizeList (l1 ++ l2) = AOp.sizeList l1 + AOp.sizeList l2 := by
  induction l1 with
  | nil => simp [AOp.sizeList]
  | cons a l ih => simp [AOp.sizeList, ih]; omega

/-- Interpreter for emitted code on an explicit stack.  Comparison
operations require integers (the target machine is typed), `eq` compares
any two values, branches run the chosen branch followed by the rest of the
block, and control operations end the block.  External collaborator
operations are given no semantics (`none`), as are stacks of the wrong
shape. -/
def exec : List AOp → List AVMValue → Option ExecResult
  | [], s => some (.next s)
  | .push v :: rest, s => exec rest (v :: s)
  | .dup0 :: rest, a :: s => exec rest (a :: a :: s)
  | .dup1 :: rest, a :: b :: s => exec rest (b :: a :: b :: s)
  | .dup2 :: rest, a :: b :: c :: s => exec rest (c :: a :: b :: c :: s)
  | .lt :: rest, .int a :: .int b :: s =>
      exec rest (.int (if a < b then 1 else 0) :: s)
  | .gt :: rest, .int a :: .int b :: s =>
      exec rest (.int (if a > b then 1 else 0) :: s)
  | .eq :: rest, a :: b :: s =>
      exec rest (.int (if a = b then 1 else 0) :: s)
  | .pop :: rest, _ :: s => exec rest s
  | .tnewn arity :: rest, s => exec rest (.tuple arity :: s)
  | .ifelse tb fb :: rest, .int c :: s =>
      if c ≠ 0 then exec (tb ++ rest) s else exec (fb ++ rest) s
  | .halt :: _, s => some (.halted s)
  | .jump :: _, .codePoint l :: s => some (.jumped l s)
  | .cjump :: rest, .codePoint l :: .int c :: s =>
      if c ≠ 0 then some (.jumped l s) else exec rest s
  | .setLabel _ :: rest, s => exec rest s
  | _, _ => none
termination_by code _ => AOp.sizeList code
decreasing_by
  all_goals simp [AOp.sizeList, AOp.sizeList_append, AOp.size]
  all_goals omega

/-- The code `handle_bad_jump` emits: push the zero-arity composite (the
"not found" sentinel). -/
def handle_bad_jump : List AOp := [.tnewn 0]

/-- The dispatch-tree synthesizer `make_bst_lookup(items)`: the code its
returned generator appends, translated case by case from the source
(`impl_n` for three or more entries, `impl_2`, `impl_1`, and the bare
`handle_bad_jump` fallback for an empty list). -/
def make_bst_lookup (items : List (Nat × AVMValue)) : List AOp :=
  if h3 : 3 ≤ items.length then
    [ .push (.int (items.get ⟨items.length / 2, by omega⟩).1), .dup1, .lt,
      .ifelse
        (make_bst_lookup (items.take (items.length / 2)))
        [ .push (.int (items.get ⟨items.length / 2, by omega⟩).1), .dup1, .gt,
          .ifelse
            (make_bst_lookup (items.drop (items.length / 2 + 1)))
            [ .pop, .push (items.get ⟨items.length / 2, by omega⟩).2 ] ] ]
  else if h2 : items.length = 2 then
    [ .dup0, .push (.int (items.get ⟨0, by omega⟩).1), .eq,
      .ifelse
        [ .pop, .push (items.get ⟨0, by omega⟩).2 ]
        [ .push (.int (items.get ⟨1, by omega⟩).1), .eq,
          .ifelse [ .push (items.get ⟨1, by omega⟩).2 ] handle_bad_jump ] ]
  else if h1 : items.length = 1 then
    [ .push (.int (items.get ⟨0, by omega⟩).1), .eq,
      .ifelse [ .push (items.get ⟨0, by omega⟩).2 ] handle_bad_jump ]
  else
    handle_bad_jump
termination_by items.length
decreasing_by
  · simp only [List.length_take]; omega
  · simp only [List.length_drop]; omega

/-- Association-list lookup by key, left to right: the reference reading
of "the key maps to its target" over a dispatch-entry list. -/
def lookupVal (k : Nat) : List (Nat × AVMValue) → Option AVMValue
  | [] => none
  | (k0, v) :: rest => if k = k0 then some v else lookupVal k rest

/-- Sorted ascending by key with pairwise-distinct keys, the invariant the
spec states for every dispatch-entry list: strict ascending order. -/
def SortedKeys (items : List (Nat × AVMValue)) : Prop :=
  items.Pairwise (fun a b => a.1 < b.1)

instance (items : List (Nat × AVMValue)) : Decidable (SortedKeys items) := by
  unfold SortedKeys; infer_instance

/-- Helper: a key that no entry carries is not found. -/
theorem lookupVal_eq_none (k : Nat) (l : List (Nat × AVMValue))
    (h : ∀ p ∈ l, p.1 ≠ k) : lookupVal k l = none := by
  induction l with
  | nil => rfl
  | cons p rest ih =>
    have hp : p.1 ≠ k := h p (by simp)
    simp only [lookupVal]
    rw [if_neg (by omega)]
    exact ih (fun q hq => h q (by simp [hq]))

theorem lookupVal_append_right_none (k : Nat) (l1 l2 : List (Nat × AVMValue))
    (h : ∀ p ∈ l2, p.1 ≠ k) : lookupVal k (l1 ++ l2) = lookupVal k l1 := by
  induction l1 with
  | nil => simp [lookupVal, lookupVal_eq_none k l2 h]
  | cons p rest ih => simp only [List.cons_append, lookupVal, List.append_eq, ih]

theorem lookupVal_append_left_none (k : Nat) (l1 l2 : List (Nat × AVMValue))
    (h : ∀ p ∈ l1, p.1 ≠ k) : lookupVal k (l1 ++ l2) = lookupVal k l2 := by
  induction l1 with
  | nil => rfl
  | cons p rest ih =>
    have hp : p.1 ≠ k := h p (by simp)
    simp only [List.cons_append, lookupVal, List.append_eq]
    rw [if_neg (by omega)]
    exact ih (fun q hq => h q (by simp [hq]))

theorem exec_make_bst_lookup (items : List (Nat × AVMValue))
    (hs : SortedKeys items) (hne : items ≠ []) (tail : List AOp)
    (k : Nat) (s : List AVMValue) :
    exec (make_bst_lookup items ++ tail) (.int k :: s) =
      exec tail ((lookupVal k items).getD (.tuple 0) :: s) := by
  rw [make_bst_lookup]
  by_cases h3 : 3 ≤ items.length
  · rw [dif_pos h3]
    have hmlt : items.length / 2 < items.length := by omega
    have hdecomp : items =
        items.take (items.length / 2) ++
          items[items.length / 2] :: items.drop (items.length / 2 + 1) := by
      conv_lhs => rw [← List.take_append_drop (items.length / 2) items]
      rw [List.drop_eq_getElem_cons hmlt]
    have hsplit : List.Pairwise (fun a b => a.1 < b.1)
        (items.take (items.length / 2) ++
          items[items.length / 2] :: items.drop (items.length / 2 + 1)) := by
      rw [← hdecomp]; exact hs
    rw [List.pairwise_append] at hsplit
    obtain ⟨hsl, hsr, hcross⟩ := hsplit
    have hsr2 : SortedKeys (items.drop (items.length / 2 + 1)) :=
      (List.pairwise_cons.mp hsr).2
    have hmidr : ∀ p ∈ items.drop (items.length / 2 + 1),
        items[items.length / 2].1 < p.1 := (List.pairwise_cons.mp hsr).1
    have hlen_take : (items.take (items.length / 2)).length = items.length / 2 := by
      simp [List.length_take]; omega
    have hlen_drop : (items.drop (items.length / 2 + 1)).length =
        items.length - (items.length / 2 + 1) := by simp
    by_cases hk : k < items[items.length / 2].1
    · -- recurse left
      simp only [List.cons_append, List.nil_append, exec, List.get_eq_getElem]
      rw [if_pos hk, if_pos (by simp)]
      have hrec := exec_make_bst_lookup (items.take (items.length / 2))
        (List.Pairwise.sublist (List.take_sublist _ _) hs)
        (by intro hemp; rw [hemp] at hlen_take; simp at hlen_take; omega)
        tail k s
      rw [hrec]
      have hrn : lookupVal k items = lookupVal k (items.take (items.length / 2)) := by
        conv_lhs => rw [hdecomp]
        apply lookupVal_append_right_none
        intro p hp
        rcases List.mem_cons.mp hp with hp | hp
        · rw [hp]; omega
        · have := hmidr p hp; omega
      rw [hrn]
    · by_cases hk2 : items[items.length / 2].1 < k
      · -- recurse right
        simp only [List.cons_append, List.nil_append, exec, List.get_eq_getElem]
        rw [if_neg hk, if_neg (by simp), if_pos hk2, if_pos (by simp)]
        have hrec := exec_make_bst_lookup (items.drop (items.length / 2 + 1))
          hsr2
          (by intro hemp; rw [hemp] at hlen_drop; simp at hlen_drop; omega)
          tail k s
        rw [hrec]
        have hrn : lookupVal k items =
            lookupVal k (items.drop (items.length / 2 + 1)) := by
          conv_lhs => rw [hdecomp]
          rw [← List.singleton_append, ← List.append_assoc]
          apply lookupVal_append_left_none
          intro p hp
          rcases List.mem_append.mp hp with hp | hp
          · have hin : items[items.length / 2] ∈
                items[items.length / 2] :: items.drop (items.length / 2 + 1) :=
              List.mem_cons_self _ _
            have := hcross p hp items[items.length / 2] hin; omega
          · simp at hp; rw [hp]; omega
        rw [hrn]
      · -- equality
        have hkeq : k = items[items.length / 2].1 := by omega
        simp only [List.cons_append, List.nil_append, exec, List.get_eq_getElem]
        rw [if_neg hk, if_neg (by simp), if_neg hk2, if_neg (by simp)]
        have hrn : lookupVal k items = some items[items.length / 2].2 := by
          conv_lhs => rw [hdecomp]
          rw [lookupVal_append_left_none k _ _ (by
            intro p hp
            have h1 : p ∈ items.take (items.length / 2) := hp
            have hin : items[items.length / 2] ∈
                items[items.length / 2] :: items.drop (items.length / 2 + 1) :=
              List.mem_cons_self _ _
            have := hcross p h1 items[items.length / 2] hin; omega)]
          simp [lookupVal, hkeq]
        rw [hrn]
        rfl
  · rw [dif_neg h3]
    rcases items with _ | ⟨a, _ | ⟨b, _ | ⟨c, t⟩⟩⟩
    · exact absurd rfl hne
    · rw [dif_neg (by simp), dif_pos (by simp)]
      by_cases ha : a.1 = k
      · simp [exec, lookupVal, handle_bad_jump, ha]
      · have ha2 : ¬(k = a.1) := fun hh => ha hh.symm
        simp [exec, lookupVal, handle_bad_jump, ha, ha2]
    · rw [dif_pos (by simp)]
      by_cases ha : a.1 = k
      · simp [exec, lookupVal, handle_bad_jump, ha]
      · have ha2 : ¬(k = a.1) := fun hh => ha hh.symm
        by_cases hb : b.1 = k
        · simp [exec, lookupVal, handle_bad_jump, ha, ha2, hb]
        · have hb2 : ¬(k = b.1) := fun hh => hb hh.symm
          simp [exec, lookupVal, handle_bad_jump, ha, ha2, hb, hb2]
    · simp [List.length_cons] at h3
termination_by items.length
decreasing_by
  · simp only [List.length_take]; omega
  · simp only [List.length_drop]; omega

/-- Comparison depth of the dispatch structure that `make_bst_lookup`
synthesizes: the largest number of entry keys the emitted code compares
the lookup key against along one execution path.  A branch node (three or
more entries) probes one pivot key (its `lt` and `gt` guards both compare
against that same pivot) and recurses into the deeper side; the two-entry
leaf probes its two keys in sequence; the one-entry leaf probes one key;
the empty tree probes none.  The case split mirrors `make_bst_lookup`.  -/
def bst_depth (items : List (Nat × AVMValue)) : Nat :=
  if 3 ≤ items.length then
    1 + max (bst_depth (items.take (items.length / 2)))
            (bst_depth (items.drop (items.length / 2 + 1)))
  else items.length
termination_by items.length
decreasing_by
  · simp only [List.length_take]; omega
  · simp only [List.length_drop]; omega

theorem bst_depth_eq_clog (items : List (Nat × AVMValue)) :
    bst_depth items = Nat.clog 2 (items.length + 1) := by
  rw [bst_depth]
  by_cases h3 : 3 ≤ items.length
  · rw [if_pos h3]
    have hlt : (items.take (items.length / 2)).length = items.length / 2 := by
      simp [List.length_take]; omega
    have hld : (items.drop (items.length / 2 + 1)).length =
        items.length - (items.length / 2 + 1) := by simp
    have ht := bst_depth_eq_clog (items.take (items.length / 2))
    have hd := bst_depth_eq_clog (items.drop (items.length / 2 + 1))
    rw [hlt] at ht
    rw [hld] at hd
    rw [ht, hd]
    have hmono : Nat.clog 2 (items.length - (items.length / 2 + 1) + 1) ≤
        Nat.clog 2 (items.length / 2 + 1) :=
      Nat.clog_mono_right 2 (by omega)
    rw [max_eq_left hmono]
    have hrec : Nat.clog 2 (items.length + 1) =
        Nat.clog 2 ((items.length + 1 + 1) / 2) + 1 :=
      Nat.clog_of_two_le (by norm_num) (by omega)
    have harg : (items.length + 1 + 1) / 2 = items.length / 2 + 1 := by omega
    rw [hrec, harg]; omega
  · rw [if_neg h3]
    have hc : items.length = 0 ∨ items.length = 1 ∨ items.length = 2 := by omega
    rcases hc with hc | hc | hc <;> rw [hc]
    · simp
    · have h1 : Nat.clog 2 2 = Nat.clog 2 ((2 + 1) / 2) + 1 :=
        Nat.clog_of_two_le (by norm_num) (by norm_num)
      simp at h1
      simp [h1]
    · have h1 : Nat.clog 2 3 = Nat.clog 2 ((3 + 1) / 2) + 1 :=
        Nat.clog_of_two_le (by norm_num) (by norm_num)
      have h2 : Nat.clog 2 2 = Nat.clog 2 ((2 + 1) / 2) + 1 :=
        Nat.clog_of_two_le (by norm_num) (by norm_num)
      simp at h2
      norm_num at h1
      simp [h1, h2]
termination_by items.length
decreasing_by
  · simp only [List.length_take]; omega
  · simp only [List.length_drop]; omega

/-- Helper: the empty block falls through, leaving the stack unchanged. -/
theorem exec_nil (s : List AVMValue) : exec [] s = some (.next s) := by
  simp [exec]

/-- C1, counterexample: on the empty dispatch list (which is sorted with
pairwise-distinct keys vacuously), the generated code pushes the sentinel
WITHOUT consuming the lookup key, so the run does not leave exactly one
value on top in place of the key: the key (here 5) survives beneath the
sentinel. -/
theorem C1_counterexample :
    exec (make_bst_lookup []) [AVMValue.int 5] =
      some (.next [.tuple 0, .int 5]) ∧
    some (ExecResult.next [AVMValue.tuple 0, AVMValue.int 5]) ≠
      some (ExecResult.next [AVMValue.tuple 0]) := by
  constructor
  · simp [make_bst_lookup, handle_bad_jump, exec]
  · decide

/-- C1 (amended to nonempty lists): for every nonempty sorted
dispatch-entry list with pairwise-distinct keys, running the generated
lookup code with the key on top of the stack consumes the key and leaves
exactly one value on top: the target associated with the key when the key
is present (`lookupVal k items = some v`), and the zero-arity composite
sentinel — never a target — when it is absent (`lookupVal k items = none`);
the rest of the stack `s` is untouched. -/
theorem C1_bst_lookup_correct (items : List (Nat × AVMValue))
    (hs : SortedKeys items) (hne : items ≠ []) (k : Nat) (s : List AVMValue) :
    exec (make_bst_lookup items) (.int k :: s) =
      some (.next ((lookupVal k items).getD (.tuple 0) :: s)) := by
  have h := exec_make_bst_lookup items hs hne [] k s
  rw [List.append_nil] at h
  rw [h, exec_nil]

theorem C1_witness :
    SortedKeys [(1, AVMValue.int 10), (2, .int 20), (3, .int 30)] ∧
    ([(1, AVMValue.int 10), (2, .int 20), (3, .int 30)] :
        List (Nat × AVMValue)) ≠ [] ∧
    exec (make_bst_lookup [(1, .int 10), (2, .int 20), (3, .int 30)])
        [.int 2] =
      some (.next
        ((lookupVal 2 [(1, .int 10), (2, .int 20), (3, .int 30)]).getD
            (.tuple 0) :: ([] : List AVMValue))) :=
  ⟨by decide, by decide,
    C1_bst_lookup_correct _ (by decide) (by decide) 2 []⟩

/-- C2: for every sorted, unique-keyed dispatch-entry list of size n, the
comparison depth of the dispatch structure produced by `make_bst_lookup`
equals the ceiling of log2(n+1), written with the ceiling base-2
logarithm as `Nat.clog 2 (n + 1)`. -/
theorem C2_depth (items : List (Nat × AVMValue)) (_hs : SortedKeys items) :
    bst_depth items = Nat.clog 2 (items.length + 1) :=
  bst_depth_eq_clog items

theorem C2_witness :
    SortedKeys [(1, AVMValue.int 10), (2, .int 20), (4, .int 40),
      (8, .int 80), (9, .int 90)] ∧
    bst_depth [(1, AVMValue.int 10), (2, .int 20), (4, .int 40),
      (8, .int 80), (9, .int 90)] = Nat.clog 2 (5 + 1) :=
  ⟨by decide, C2_depth _ (by decide)⟩

/-- The one-entry leaf algorithm as the spec words it: duplicate the key,
compare it for equality with the single entry's key; if equal, discard the
key copy and push the entry's target; otherwise push the sentinel.
(Spec-side definition, written only to compare claim C7 with the code.) -/
def impl_1_spec (k0 : Nat) (t0 : AVMValue) : List AOp :=
  [ .dup0, .push (.int k0), .eq,
    .ifelse [ .pop, .push t0 ] handle_bad_jump ]

/-- C7, counterexample: the code the compiler emits for a one-entry list
is not the leaf algorithm the spec describes: it never duplicates the key
(its equality test consumes the key), and on a missed lookup the two
disagree observably — the emitted code consumes the key, while the
spec-described code leaves the key buried beneath the sentinel. -/
theorem C7_counterexample :
    make_bst_lookup [(5, AVMValue.int 99)] ≠ impl_1_spec 5 (AVMValue.int 99) ∧
    exec (make_bst_lookup [(5, AVMValue.int 99)]) [.int 7] =
      some (.next [.tuple 0]) ∧
    exec (impl_1_spec 5 (AVMValue.int 99)) [.int 7] =
      some (.next [.tuple 0, .int 7]) := by
  refine ⟨?_, ?_, ?_⟩
  · simp [make_bst_lookup, impl_1_spec, handle_bad_jump]
  · simp [make_bst_lookup, handle_bad_jump, exec]
  · simp [impl_1_spec, handle_bad_jump, exec]

/-- C7 (amended): for a one-entry list the generated lookup code pushes
the entry's key and compares it for equality with the lookup key — the
comparison consumes the key, with no duplication and no later discard —
then pushes the entry's target if they were equal and the sentinel
otherwise. -/
theorem C7_impl_1 (k0 : Nat) (t0 : AVMValue) (k : Nat) (s : List AVMValue) :
    make_bst_lookup [(k0, t0)] =
      [ .push (.int k0), .eq, .ifelse [ .push t0 ] handle_bad_jump ] ∧
    exec (make_bst_lookup [(k0, t0)]) (.int k :: s) =
      some (.next ((if k0 = k then t0 else .tuple 0) :: s)) := by
  constructor
  · rw [make_bst_lookup]
    rw [dif_neg (by simp), dif_neg (by simp), dif_pos (by simp)]
    simp
  · by_cases h : k0 = k
    · simp [make_bst_lookup, handle_bad_jump, exec, h]
    · have h2 : ¬(k = k0) := fun hh => h hh.symm
      simp [make_bst_lookup, handle_bad_jump, exec, h, h2]

/-- The metadata-marker probe of `remove_metadata` (lines 55-58): the
adjacent opcode bytes at positions i, i+1 are 0xa1, 0x65.  Out-of-range
reads use the default instruction (opcode 0) and so never match; the
Python loop only probes in-range positions. -/
def markerAt (instrs : List Instr) (i : Nat) : Bool :=
  (instrs.getD i default).opcode == 0xa1 &&
    (instrs.getD (i + 1) default).opcode == 0x65

/-- The backward scan of `remove_metadata`: probe i, i-1, ..., 0 and
truncate at the first (largest) marker position found. -/
def remove_metadata_go (instrs : List Instr) : Nat → List Instr
  | 0 => if markerAt instrs 0 then instrs.take 0 else instrs
  | i + 1 =>
      if markerAt instrs (i + 1) then instrs.take (i + 1)
      else remove_metadata_go instrs i

/-- `remove_metadata(instrs)`: scan from index len-2 downward; at the
first marker pair return the prefix before it, else the whole list.  For
lists shorter than two instructions the Python range is empty and the
list is returned unchanged; in the model the single probe at index 0 is
then out of range and never matches, giving the same result. -/
def remove_metadata (instrs : List Instr) : List Instr :=
  remove_metadata_go instrs (instrs.length - 2)

/-- The 160-bit all-ones mask 2**160 - 1 that the idiom guard compares
the PUSH20 operand against. -/
def balanceMask : Nat := 2 ^ 160 - 1

/-- The five-conjunct idiom guard of `replace_self_balance` (lines 39-45)
with Python short-circuit evaluation; an out-of-range list index raises
IndexError, modelled as `none`.  The loop ensures the first read
`instrs[i]` is in range. -/
def self_balance_match (instrs : List Instr) (i : Nat) : Option Bool := do
  let a ← instrs[i]?
  if a.name = "ADDRESS" then
    let b ← instrs[i + 1]?
    if b.name = "PUSH20" then
      if b.operand = some balanceMask then
        let c ← instrs[i + 2]?
        if c.name = "AND" then
          let d ← instrs[i + 3]?
          pure (d.name == "BALANCE")
        else pure false
      else pure false
    else pure false
  else pure false

/-- The while-loop of `replace_self_balance`: on a guard match append the
SELF_BALANCE pseudo-instruction and skip four instructions, otherwise
copy one instruction (read with getD: the loop guard keeps i in range,
so this is exactly the Python read instrs[i]); `none` propagates an
IndexError raised by the guard. -/
def replace_self_balance_go (instrs : List Instr) (i : Nat)
    (out : List Instr) : Option (List Instr) :=
  if _h : i < instrs.length then
    match self_balance_match instrs i with
    | none => none
    | some true =>
        replace_self_balance_go instrs (i + 4) (out ++ [AVMOp "SELF_BALANCE"])
    | some false =>
        replace_self_balance_go instrs (i + 1)
          (out ++ [instrs.getD i default])
  else some out
termination_by instrs.length - i
decreasing_by all_goals omega

/-- `replace_self_balance(instrs)`: `some` of the rewritten list, or
`none` where the Python function raises IndexError. -/
def replace_self_balance (instrs : List Instr) : Option (List Instr) :=
  replace_self_balance_go instrs 0 []

/-- The jump table of `generate_contract_code` (lines 203-211): one entry
`(pc, jumpdest_<contractId>_<pc>)` per JUMPDEST instruction, sorted by
program counter.  Python sorted() is a stable sort, modelled by insertion
sort (also stable). -/
def jump_table_of (contract_id : Nat) (code : List Instr) :
    List (Nat × AVMValue) :=
  List.insertionSort (fun a b => a.1 ≤ b.1)
    ((code.filter (fun insn => insn.name == "JUMPDEST")).map
      (fun insn => (insn.pc, AVMValue.codePoint (.jumpdest contract_id insn.pc))))

/-- The ascending-id iteration order of `generate_evm_code` (lines 143,
162): Python iterates sorted(contracts) over the dict keys, every key
distinct.  The dict is modelled as an association list. -/
def sorted_contracts (contracts : List (Nat × List Instr)) :
    List (Nat × List Instr) :=
  List.insertionSort (fun a b => a.1 ≤ b.1) contracts

/-- The code-size dispatch list (lines 142-144): contract id to the RAW
disassembled instruction count, taken before any normalization pass. -/
def code_sizes (contracts : List (Nat × List Instr)) :
    List (Nat × AVMValue) :=
  (sorted_contracts contracts).map (fun c => (c.1, AVMValue.int c.2.length))

/-- The contract-entry dispatch list as it stands when the global tree is
synthesized (lines 145-150): contract id to its entry label, one entry
per contract.  The later second append (line 176) happens after the tree
has been built. -/
def contract_dispatch (contracts : List (Nat × List Instr)) :
    List (Nat × AVMValue) :=
  (sorted_contracts contracts).map
    (fun c => (c.1, AVMValue.codePoint (.contractEntry c.1)))

/-- Python int() applied to a decimal digit string, as used on the SWAP
and DUP mnemonic suffixes: the accumulated value, or `none` where int()
raises ValueError (empty string or a non-digit). -/
def parseNatGo : List Char → Nat → Option Nat
  | [], acc => some acc
  | c :: cs, acc =>
      if c.isDigit then parseNatGo cs (acc * 10 + (c.toNat - 48)) else none

/-- Python int() on the suffix character list; empty input raises. -/
def parseNat : List Char → Option Nat
  | [] => none
  | c :: cs => parseNatGo (c :: cs) 0

/-- The per-instruction translator `run_op(instr)` nested in
`generate_contract_code`, with its closure parameters made explicit: the
normalized contract code (read by CODESIZE), the contract id (ADDRESS,
labels, call sites), the local jump table that `dispatch` wraps
(JUMP/JUMPI), and the global code-size table that `code_size` wraps
(EXTCODESIZE); the `modifies_stack` wrappers only annotate, so both
wrappers inline their lookup code.  The result is the block of target
operations the instruction translates to, or the exception raised for an
unhandled instruction, carrying the offending instruction (the source
interpolates the instruction, with its mnemonic and fields, into the
message); the ValueError that int() would raise on a malformed SWAP/DUP
suffix is also modelled as an error. -/
def run_op (code : List Instr) (contract_id : Nat)
    (jump_table : List (Nat × AVMValue))
    (code_size : List (Nat × AVMValue)) (instr : Instr) :
    Except Instr (List AOp) :=
  if instr.name = "HASH" then .ok [.ext "vm.hash" []]
  else if instr.name = "SELF_BALANCE" then
    .ok [.push (.int 0), .ext "os.balance_get" []]
  else if instr.name = "ADD" then .ok [.ext "vm.add" []]
  else if instr.name = "MUL" then .ok [.ext "vm.mul" []]
  else if instr.name = "SUB" then .ok [.ext "vm.sub" []]
  else if instr.name = "DIV" then .ok [.ext "vm.div" []]
  else if instr.name = "MOD" then .ok [.ext "vm.mod" []]
  else if instr.name = "EXP" then .ok [.ext "vm.exp" []]
  else if instr.name = "AND" then .ok [.ext "vm.bitwise_and" []]
  else if instr.name = "OR" then .ok [.ext "vm.bitwise_or" []]
  else if instr.name = "NOT" then .ok [.ext "vm.bitwise_not" []]
  else if instr.name = "LT" then .ok [.lt]
  else if instr.name = "GT" then .ok [.gt]
  else if instr.name = "EQ" then .ok [.eq]
  else if instr.name = "ISZERO" then .ok [.ext "vm.iszero" []]
  else if instr.name = "TIMESTAMP" then .ok [.ext "os.message_timestamp" []]
  else if instr.name.data.take 4 = "SWAP".data then
    match parseNat (instr.name.data.drop 4) with
    | none => .error instr
    | some m =>
      if m = 1 then .ok [.ext "vm.swap1" []]
      else if m = 2 then .ok [.ext "vm.swap2" []]
      else .ok [.ext "stack_manip.swap_n" [(m : Int)]]
  else if instr.name = "POP" then .ok [.pop]
  else if instr.name = "SLOAD" then .ok [.ext "os.storage_load" []]
  else if instr.name = "SSTORE" then .ok [.ext "os.storage_store" []]
  else if instr.name = "MSTORE" then .ok [.ext "os.memory_store" []]
  else if instr.name = "MLOAD" then .ok [.ext "os.memory_load" []]
  else if instr.name = "ADDRESS" then .ok [.push (.int contract_id)]
  else if instr.name = "CALLER" then .ok [.ext "os.message_caller" []]
  else if instr.name = "CALLVALUE" then .ok [.ext "os.message_value" []]
  else if instr.name = "CALLDATALOAD" then .ok [.ext "os.message_data_load" []]
  else if instr.name = "CALLDATASIZE" then .ok [.ext "os.message_data_size" []]
  else if instr.name = "CODESIZE" then .ok [.push (.int code.length)]
  else if instr.name = "EXTCODESIZE" then
    .ok (make_bst_lookup code_size ++
      [.dup0, .tnewn 0, .eq, .ifelse [.halt] []])
  else if instr.name = "GAS" then .ok [.push (.int 9999999999)]
  else if instr.name = "CODECOPY" then .ok [.ext "os.evm_copy_to_memory" []]
  else if instr.name.data.take 4 = "PUSH".data then
    match instr.operand with
    | some n => .ok [.push (.int n)]
    | none => .ok [.ext "vm.push_operand_missing" []]
  else if instr.name.data.take 3 = "DUP".data then
    match parseNat (instr.name.data.drop 3) with
    | none => .error instr
    | some m =>
      if (m : Int) - 1 = 0 then .ok [.dup0]
      else if (m : Int) - 1 = 1 then .ok [.dup1]
      else if (m : Int) - 1 = 2 then .ok [.dup2]
      else .ok [.ext "stack_manip.dup_n" [(m : Int) - 1]]
  else if instr.name = "RETURNDATASIZE" then .ok [.ext "os.return_data_size" []]
  else if instr.name = "RETURNDATACOPY" then .ok [.ext "os.return_data_copy" []]
  else if instr.name = "CALL" then
    .ok [.ext "execution.call" [(instr.pc : Int), (contract_id : Int)]]
  else if instr.name = "STATICCALL" then
    .ok [.ext "execution.staticcall" [(instr.pc : Int), (contract_id : Int)]]
  else if instr.name = "STOP" then .ok [.ext "execution.stop" []]
  else if instr.name = "REVERT" then .ok [.ext "execution.revert" []]
  else if instr.name = "RETURN" then .ok [.ext "execution.ret" []]
  else if instr.name = "INVALID" then .ok [.ext "execution.revert" []]
  else if instr.name = "SELFDESTRUCT" then .ok [.ext "execution.selfdestruct" []]
  else if instr.name = "JUMPI" then
    .ok (make_bst_lookup jump_table ++
      [.dup0, .tnewn 0, .eq, .ifelse [.halt] [.cjump]])
  else if instr.name = "JUMP" then
    .ok (make_bst_lookup jump_table ++
      [.dup0, .tnewn 0, .eq, .ifelse [.halt] [.jump]])
  else if instr.name = "JUMPDEST" then
    .ok [.setLabel (.jumpdest contract_id instr.pc)]
  else if instr.name = "SHA3" then .ok [.ext "os.evm_sha3" []]
  else if instr.name = "LOG1" then .ok [.ext "os.evm_log1" []]
  else if instr.name = "LOG2" then .ok [.ext "os.evm_log2" []]
  else if instr.name = "LOG3" then .ok [.ext "os.evm_log3" []]
  else .error instr

/-- A mnemonic is in the translated set when some branch of the `run_op`
conditional chain other than the final raise accepts it; the disjuncts
are the chain conditions verbatim. -/
def TranslatedName (s : String) : Prop :=
  s = "HASH" ∨ s = "SELF_BALANCE" ∨ s = "ADD" ∨ s = "MUL" ∨ s = "SUB" ∨
  s = "DIV" ∨ s = "MOD" ∨ s = "EXP" ∨ s = "AND" ∨ s = "OR" ∨ s = "NOT" ∨
  s = "LT" ∨ s = "GT" ∨ s = "EQ" ∨ s = "ISZERO" ∨ s = "TIMESTAMP" ∨
  s.data.take 4 = "SWAP".data ∨ s = "POP" ∨ s = "SLOAD" ∨ s = "SSTORE" ∨
  s = "MSTORE" ∨ s = "MLOAD" ∨ s = "ADDRESS" ∨ s = "CALLER" ∨
  s = "CALLVALUE" ∨ s = "CALLDATALOAD" ∨ s = "CALLDATASIZE" ∨
  s = "CODESIZE" ∨ s = "EXTCODESIZE" ∨ s = "GAS" ∨ s = "CODECOPY" ∨
  s.data.take 4 = "PUSH".data ∨ s.data.take 3 = "DUP".data ∨
  s = "RETURNDATASIZE" ∨ s = "RETURNDATACOPY" ∨ s = "CALL" ∨
  s = "STATICCALL" ∨ s = "STOP" ∨ s = "REVERT" ∨ s = "RETURN" ∨
  s = "INVALID" ∨ s = "SELFDESTRUCT" ∨ s = "JUMPI" ∨ s = "JUMP" ∨
  s = "JUMPDEST" ∨ s = "SHA3" ∨ s = "LOG1" ∨ s = "LOG2" ∨ s = "LOG3"

instance (s : String) : Decidable (TranslatedName s) := by
  unfold TranslatedName; infer_instance

/-- Helper shared by several claims: an instruction whose mnemonic lies
outside the translated set makes `run_op` raise, carrying the
instruction. -/
theorem run_op_unhandled (code : List Instr) (contract_id : Nat)
    (jt cs : List (Nat × AVMValue)) (instr : Instr)
    (h : ¬ TranslatedName instr.name) :
    run_op code contract_id jt cs instr = .error instr := by
  unfold TranslatedName at h
  push_neg at h
  obtain ⟨h1, h2, h3, h4, h5, h6, h7, h8, h9, h10, h11, h12, h13, h14, h15, h16, h17, h18, h19, h20, h21, h22, h23, h24, h25, h26, h27, h28, h29, h30, h31, h32, h33, h34, h35, h36, h37, h38, h39, h40, h41, h42, h43, h44, h45, h46, h47, h48, h49⟩ := h
  unfold run_op
  rw [if_neg h1, if_neg h2, if_neg h3, if_neg h4, if_neg h5, if_neg h6, if_neg h7, if_neg h8, if_neg h9, if_neg h10, if_neg h11, if_neg h12, if_neg h13, if_neg h14, if_neg h15, if_neg h16, if_neg h17, if_neg h18, if_neg h19, if_neg h20, if_neg h21, if_neg h22, if_neg h23, if_neg h24, if_neg h25, if_neg h26, if_neg h27, if_neg h28, if_neg h29, if_neg h30, if_neg h31, if_neg h32, if_neg h33, if_neg h34, if_neg h35, if_neg h36, if_neg h37, if_neg h38, if_neg h39, if_neg h40, if_neg h41, if_neg h42, if_neg h43, if_neg h44, if_neg h45, if_neg h46, if_neg h47, if_neg h48, if_neg h49]

/-- The per-contract translation loop (lines 363-367): one block per
normalized instruction, in order; a raised exception aborts the loop so
no partial output is produced. -/
def compile_ops (code : List Instr) (contract_id : Nat)
    (jt cs : List (Nat × AVMValue)) : List Instr → Except Instr (List (List AOp))
  | [] => .ok []
  | i :: rest =>
    match run_op code contract_id jt cs i with
    | .error e => .error e
    | .ok b =>
      match compile_ops code contract_id jt cs rest with
      | .error e => .error e
      | .ok bs => .ok (b :: bs)

/-- Helper: a marker match needs two in-range instructions. -/
theorem markerAt_lt (instrs : List Instr) (j : Nat)
    (h : markerAt instrs j = true) : j + 1 < instrs.length := by
  by_contra hc
  push_neg at hc
  unfold markerAt at h
  rw [List.getD_eq_default _ _ hc] at h
  simp [default] at h

theorem markerAt_take (instrs : List Instr) (j i : Nat) (h : j + 1 < i) :
    markerAt (instrs.take i) j = markerAt instrs j := by
  unfold markerAt
  simp only [List.getD_eq_getElem?_getD, List.getElem?_take]
  rw [if_pos (by omega), if_pos (by omega)]

theorem remove_metadata_go_no_marker (instrs : List Instr) (i : Nat)
    (h : ∀ j ≤ i, markerAt instrs j = false) :
    remove_metadata_go instrs i = instrs := by
  induction i with
  | zero =>
    rw [remove_metadata_go, if_neg (by simp [h 0 le_rfl])]
  | succ n ih =>
    rw [remove_metadata_go, if_neg (by simp [h (n + 1) le_rfl])]
    exact ih (fun j hj => h j (by omega))

theorem remove_metadata_go_found (instrs : List Instr) (i j : Nat)
    (hj : markerAt instrs j = true) (hji : j ≤ i)
    (habove : ∀ j2, j < j2 → j2 ≤ i → markerAt instrs j2 = false) :
    remove_metadata_go instrs i = instrs.take j := by
  induction i with
  | zero =>
    have hj0 : j = 0 := by omega
    subst hj0
    rw [remove_metadata_go, if_pos hj]
  | succ n ih =>
    by_cases hcase : j = n + 1
    · subst hcase
      rw [remove_metadata_go, if_pos hj]
    · have hfalse : markerAt instrs (n + 1) = false :=
        habove (n + 1) (by omega) le_rfl
      rw [remove_metadata_go, if_neg (by simp [hfalse])]
      exact ih (by omega) (fun j2 h1 h2 => habove j2 h1 (by omega))

/-- C6 (amended): metadata stripping is idempotent on every instruction
list in which the adjacent marker byte pair occurs at most once. -/
theorem C6_remove_metadata_idempotent (instrs : List Instr)
    (huniq : ∀ i < instrs.length, ∀ j < instrs.length,
      markerAt instrs i = true → markerAt instrs j = true → i = j) :
    remove_metadata (remove_metadata instrs) = remove_metadata instrs := by
  by_cases hex : ∃ j, markerAt instrs j = true
  · obtain ⟨j, hj⟩ := hex
    have hjlt : j + 1 < instrs.length := markerAt_lt instrs j hj
    have habove : ∀ j2, j < j2 → j2 ≤ instrs.length - 2 →
        markerAt instrs j2 = false := by
      intro j2 h1 h2
      by_contra htrue
      simp only [Bool.not_eq_false] at htrue
      have hj2lt : j2 + 1 < instrs.length := markerAt_lt instrs j2 htrue
      have := huniq j (by omega) j2 (by omega) hj htrue
      omega
    have hfirst : remove_metadata instrs = instrs.take j :=
      remove_metadata_go_found instrs (instrs.length - 2) j hj (by omega) habove
    rw [hfirst]
    have hlen_take : (instrs.take j).length = j := by simp; omega
    have hnone : ∀ j2 ≤ (instrs.take j).length - 2,
        markerAt (instrs.take j) j2 = false := by
      intro j2 _
      by_cases hlt : j2 + 1 < j
      · rw [markerAt_take instrs j2 j hlt]
        by_contra htrue
        simp only [Bool.not_eq_false] at htrue
        have hj2lt : j2 + 1 < instrs.length := markerAt_lt instrs j2 htrue
        have := huniq j2 (by omega) j (by omega) htrue hj
        omega
      · by_contra htrue
        simp only [Bool.not_eq_false] at htrue
        have := markerAt_lt _ _ htrue
        omega
    exact remove_metadata_go_no_marker _ _ hnone
  · push_neg at hex
    simp only [Bool.not_eq_true] at hex
    have h1 : remove_metadata instrs = instrs :=
      remove_metadata_go_no_marker _ _ (fun j _ => hex j)
    rw [h1, h1]

/-- C6, counterexample: with the marker pair occurring twice, stripping
once keeps the earlier occurrence and stripping again truncates further,
so double stripping differs from single stripping. -/
theorem C6_counterexample :
    remove_metadata (remove_metadata
        [⟨"LOG1", 0xa1, none, 0⟩, ⟨"PUSH6", 0x65, some 1, 1⟩,
         ⟨"LOG1", 0xa1, none, 8⟩, ⟨"PUSH6", 0x65, some 2, 9⟩]) ≠
      remove_metadata
        [⟨"LOG1", 0xa1, none, 0⟩, ⟨"PUSH6", 0x65, some 1, 1⟩,
         ⟨"LOG1", 0xa1, none, 8⟩, ⟨"PUSH6", 0x65, some 2, 9⟩] := by
  decide

theorem C6_witness :
    (∀ i < ([⟨"STOP", 0, none, 0⟩, ⟨"LOG1", 0xa1, none, 1⟩,
        ⟨"PUSH6", 0x65, some 3, 2⟩] : List Instr).length,
      ∀ j < ([⟨"STOP", 0, none, 0⟩, ⟨"LOG1", 0xa1, none, 1⟩,
        ⟨"PUSH6", 0x65, some 3, 2⟩] : List Instr).length,
      markerAt [⟨"STOP", 0, none, 0⟩, ⟨"LOG1", 0xa1, none, 1⟩,
        ⟨"PUSH6", 0x65, some 3, 2⟩] i = true →
      markerAt [⟨"STOP", 0, none, 0⟩, ⟨"LOG1", 0xa1, none, 1⟩,
        ⟨"PUSH6", 0x65, some 3, 2⟩] j = true → i = j) ∧
    remove_metadata (remove_metadata [⟨"STOP", 0, none, 0⟩,
        ⟨"LOG1", 0xa1, none, 1⟩, ⟨"PUSH6", 0x65, some 3, 2⟩]) =
      remove_metadata [⟨"STOP", 0, none, 0⟩, ⟨"LOG1", 0xa1, none, 1⟩,
        ⟨"PUSH6", 0x65, some 3, 2⟩] :=
  ⟨by decide, C6_remove_metadata_idempotent _ (by decide)⟩

/-- Helper: a successful idiom match read a BALANCE at position i+3. -/
theorem self_balance_match_eq_some_true (instrs : List Instr) (i : Nat)
    (h : self_balance_match instrs i = some true) :
    ∃ d, instrs[i + 3]? = some d ∧ d.name = "BALANCE" := by
  unfold self_balance_match at h
  cases h0 : instrs[i]? with
  | none => rw [h0] at h; simp at h
  | some a =>
    rw [h0] at h
    simp only [Option.bind_eq_bind, Option.some_bind] at h
    by_cases ha : a.name = "ADDRESS"
    · rw [if_pos ha] at h
      cases h1 : instrs[i + 1]? with
      | none => rw [h1] at h; simp at h
      | some b =>
        rw [h1] at h
        simp only [Option.bind_eq_bind, Option.some_bind] at h
        by_cases hb : b.name = "PUSH20"
        · rw [if_pos hb] at h
          by_cases hb2 : b.operand = some balanceMask
          · rw [if_pos hb2] at h
            cases h2 : instrs[i + 2]? with
            | none => rw [h2] at h; simp at h
            | some c =>
              rw [h2] at h
              simp only [Option.bind_eq_bind, Option.some_bind] at h
              by_cases hc : c.name = "AND"
              · rw [if_pos hc] at h
                cases h3 : instrs[i + 3]? with
                | none => rw [h3] at h; simp at h
                | some d =>
                  rw [h3] at h
                  simp only [Option.bind_eq_bind, Option.some_bind] at h
                  refine ⟨d, rfl, ?_⟩
                  simpa using h
              · rw [if_neg hc] at h; simp at h
          · rw [if_neg hb2] at h; simp at h
        · rw [if_neg hb] at h; simp at h
    · rw [if_neg ha] at h; simp at h

theorem self_balance_match_last_address (instrs : List Instr)
    (hlen : 0 < instrs.length) (a : Instr)
    (hget : instrs[instrs.length - 1]? = some a) (ha : a.name = "ADDRESS") :
    self_balance_match instrs (instrs.length - 1) = none := by
  unfold self_balance_match
  rw [hget]
  simp only [Option.bind_eq_bind, Option.some_bind]
  rw [if_pos ha]
  have hnone : instrs[instrs.length - 1 + 1]? = none := by
    rw [List.getElem?_eq_none]
    omega
  rw [hnone]
  rfl

theorem replace_go_last_address (instrs : List Instr) (a : Instr)
    (hget : instrs[instrs.length - 1]? = some a) (ha : a.name = "ADDRESS")
    (i : Nat) (out : List Instr) (hi : i < instrs.length) :
    replace_self_balance_go instrs i out = none := by
  rw [replace_self_balance_go, dif_pos hi]
  cases hm : self_balance_match instrs i with
  | none => rfl
  | some b =>
    cases b with
    | true =>
      obtain ⟨d, hd, hdname⟩ := self_balance_match_eq_some_true instrs i hm
      have hd_in : i + 3 < instrs.length := by
        by_contra hc
        push_neg at hc
        rw [List.getElem?_eq_none hc] at hd
        exact Option.noConfusion hd
      have hne : i + 3 ≠ instrs.length - 1 := by
        intro heq
        rw [heq, hget] at hd
        have hda : a = d := by injection hd
        rw [← hda, ha] at hdname
        exact absurd hdname (by decide)
      exact replace_go_last_address instrs a hget ha (i + 4) _ (by omega)
    | false =>
      by_cases hlast : i = instrs.length - 1
      · rw [hlast] at hm
        rw [self_balance_match_last_address instrs (by omega) a hget ha] at hm
        exact Option.noConfusion hm
      · exact replace_go_last_address instrs a hget ha (i + 1) _ (by omega)
termination_by instrs.length - i
decreasing_by
  · omega
  · omega

/-- C10: for every instruction list whose last instruction is named
ADDRESS, replace_self_balance hits an out-of-range index (the guard reads
the three following positions) and raises IndexError instead of
returning a list: in the model, the pass returns none. -/
theorem C10_replace_self_balance_raises (instrs : List Instr)
    (hlast : instrs.getLast?.map Instr.name = some "ADDRESS") :
    replace_self_balance instrs = none := by
  have hne : instrs ≠ [] := by
    intro h
    rw [h] at hlast
    exact Option.noConfusion hlast
  have hlen : 0 < instrs.length := List.length_pos.mpr hne
  obtain ⟨a, hget, ha⟩ : ∃ a, instrs.getLast? = some a ∧ a.name = "ADDRESS" := by
    cases hg : instrs.getLast? with
    | none => rw [hg] at hlast; exact Option.noConfusion hlast
    | some x =>
      rw [hg] at hlast
      refine ⟨x, rfl, ?_⟩
      injection hlast
  rw [List.getLast?_eq_getElem?] at hget
  exact replace_go_last_address instrs a hget ha 0 [] hlen

theorem C10_witness :
    ([⟨"STOP", 0, none, 0⟩, ⟨"ADDRESS", 0x30, none, 1⟩] :
        List Instr).getLast?.map Instr.name = some "ADDRESS" ∧
    replace_self_balance
        [⟨"STOP", 0, none, 0⟩, ⟨"ADDRESS", 0x30, none, 1⟩] = none :=
  ⟨by decide, C10_replace_self_balance_raises _ (by decide)⟩

/-- Helper: one failing instruction aborts the whole translation loop. -/
theorem compile_ops_error_of_mem (code : List Instr) (contract_id : Nat)
    (jt cs : List (Nat × AVMValue)) (i : Instr) (instrs : List Instr)
    (hmem : i ∈ instrs)
    (herr : run_op code contract_id jt cs i = .error i) :
    ∃ e, compile_ops code contract_id jt cs instrs = .error e := by
  induction instrs with
  | nil => simp at hmem
  | cons a rest ih =>
    simp only [compile_ops]
    cases hr : run_op code contract_id jt cs a with
    | error e => exact ⟨e, rfl⟩
    | ok b =>
      rcases List.mem_cons.mp hmem with heq | hmem2
      · rw [← heq] at hr
        rw [herr] at hr
        exact Except.noConfusion hr
      · obtain ⟨e, he⟩ := ih hmem2
        rw [he]
        exact ⟨e, rfl⟩

/-- C5: an instruction whose mnemonic lies outside the translated set
makes translation fail immediately with an error that carries the
offending instruction (the raised message interpolates the instruction,
so both its mnemonic and its program counter are reported), and the
per-contract translation loop aborts without producing output whenever
such an instruction occurs in the code; this compile-time error value is
disjoint by construction from the ok-blocks whose execution can halt at
run time on an invalid jump or introspection target. -/
theorem C5_unhandled_opcode (code : List Instr) (contract_id : Nat)
    (jt cs : List (Nat × AVMValue)) (instr : Instr)
    (h : ¬ TranslatedName instr.name) :
    run_op code contract_id jt cs instr = .error instr ∧
    (∀ instrs : List Instr, instr ∈ instrs →
      ∃ e, compile_ops code contract_id jt cs instrs = .error e) := by
  have herr := run_op_unhandled code contract_id jt cs instr h
  exact ⟨herr, fun instrs hmem =>
    compile_ops_error_of_mem code contract_id jt cs instr instrs hmem herr⟩

theorem C5_witness :
    ¬ TranslatedName (Instr.name ⟨"BALANCE", 0x31, none, 5⟩) ∧
    (run_op [] 1 [] [] ⟨"BALANCE", 0x31, none, 5⟩ =
        .error ⟨"BALANCE", 0x31, none, 5⟩ ∧
      (∀ instrs : List Instr, (⟨"BALANCE", 0x31, none, 5⟩ : Instr) ∈ instrs →
        ∃ e, compile_ops [] 1 [] [] instrs = .error e)) :=
  ⟨by decide, C5_unhandled_opcode [] 1 [] [] ⟨"BALANCE", 0x31, none, 5⟩ (by decide)⟩

/-- Helper: the output accumulator of the fusion loop factors out. -/
theorem replace_go_out (instrs : List Instr) (i : Nat) (out : List Instr) :
    replace_self_balance_go instrs i out =
      Option.map (fun l => out ++ l) (replace_self_balance_go instrs i []) := by
  conv_lhs => rw [replace_self_balance_go]
  conv_rhs => rw [replace_self_balance_go]
  by_cases hi : i < instrs.length
  · rw [dif_pos hi, dif_pos hi]
    cases hm : self_balance_match instrs i with
    | none => rfl
    | some b =>
      cases b with
      | true =>
        rw [replace_go_out instrs (i + 4) (out ++ [AVMOp "SELF_BALANCE"]),
          replace_go_out instrs (i + 4) ([] ++ [AVMOp "SELF_BALANCE"])]
        cases replace_self_balance_go instrs (i + 4) [] <;> simp
      | false =>
        rw [replace_go_out instrs (i + 1) (out ++ [instrs.getD i default]),
          replace_go_out instrs (i + 1) ([] ++ [instrs.getD i default])]
        cases replace_self_balance_go instrs (i + 1) [] <;> simp
  · rw [dif_neg hi, dif_neg hi]
    simp
termination_by instrs.length - i
decreasing_by
  · omega
  · omega
  · omega
  · omega

theorem self_balance_match_shift (pre rest : List Instr) (i : Nat) :
    self_balance_match (pre ++ rest) (pre.length + i) = self_balance_match rest i := by
  unfold self_balance_match
  have e0 : (pre ++ rest)[pre.length + i]? = rest[i]? := by
    rw [List.getElem?_append_right (by omega)]
    congr 1
    omega
  have e1 : (pre ++ rest)[pre.length + i + 1]? = rest[i + 1]? := by
    rw [List.getElem?_append_right (by omega)]
    congr 1
    omega
  have e2 : (pre ++ rest)[pre.length + i + 2]? = rest[i + 2]? := by
    rw [List.getElem?_append_right (by omega)]
    congr 1
    omega
  have e3 : (pre ++ rest)[pre.length + i + 3]? = rest[i + 3]? := by
    rw [List.getElem?_append_right (by omega)]
    congr 1
    omega
  rw [e0, e1, e2, e3]

theorem replace_go_shift (pre rest : List Instr) (i : Nat) (out : List Instr) :
    replace_self_balance_go (pre ++ rest) (pre.length + i) out =
      replace_self_balance_go rest i out := by
  conv_lhs => rw [replace_self_balance_go]
  conv_rhs => rw [replace_self_balance_go]
  by_cases hi : i < rest.length
  · rw [dif_pos (by simp; omega), dif_pos hi]
    rw [self_balance_match_shift]
    cases hm : self_balance_match rest i with
    | none => rfl
    | some b =>
      cases b with
      | true =>
        have h4 : pre.length + i + 4 = pre.length + (i + 4) := by omega
        rw [h4]
        exact replace_go_shift pre rest (i + 4) _
      | false =>
        have hel : (pre ++ rest).getD (pre.length + i) default =
            rest.getD i default := by
          rw [List.getD_eq_getElem?_getD, List.getD_eq_getElem?_getD,
            List.getElem?_append_right (by omega)]
          congr 2
          omega
        rw [hel]
        have h1 : pre.length + i + 1 = pre.length + (i + 1) := by omega
        rw [h1]
        exact replace_go_shift pre rest (i + 1) _
  · rw [dif_neg (by simp; omega), dif_neg hi]
termination_by rest.length - i
decreasing_by
  · omega
  · omega

/-- The exact four-instruction idiom pattern that the guard of
`replace_self_balance` tests: ADDRESS; PUSH20 of the 160-bit all-ones
mask; AND; BALANCE. -/
def IdiomMatch (i0 i1 i2 i3 : Instr) : Prop :=
  i0.name = "ADDRESS" ∧ i1.name = "PUSH20" ∧
    i1.operand = some balanceMask ∧ i2.name = "AND" ∧ i3.name = "BALANCE"

instance (i0 i1 i2 i3 : Instr) : Decidable (IdiomMatch i0 i1 i2 i3) := by
  unfold IdiomMatch; infer_instance

/-- A single-instruction deviation: the instruction placed at position j
fails the guard conjunct for that position. -/
def DeviatesAt (j : Fin 4) (d : Instr) : Prop :=
  if j.val = 0 then d.name ≠ "ADDRESS"
  else if j.val = 1 then
    ¬ (d.name = "PUSH20" ∧ d.operand = some balanceMask)
  else if j.val = 2 then d.name ≠ "AND"
  else d.name ≠ "BALANCE"

instance (j : Fin 4) (d : Instr) : Decidable (DeviatesAt j d) := by
  unfold DeviatesAt; infer_instance

theorem go_step_false (instrs : List Instr) (i : Nat) (out : List Instr)
    (h : i < instrs.length) (hg : self_balance_match instrs i = some false) :
    replace_self_balance_go instrs i out =
      replace_self_balance_go instrs (i + 1) (out ++ [instrs.getD i default]) := by
  conv_lhs => rw [replace_self_balance_go]
  rw [dif_pos h, hg]

theorem go_end (instrs : List Instr) (i : Nat) (out : List Instr)
    (h : ¬ i < instrs.length) :
    replace_self_balance_go instrs i out = some out := by
  rw [replace_self_balance_go, dif_neg h]

theorem replace_fires (i0 i1 i2 i3 : Instr) (hm : IdiomMatch i0 i1 i2 i3)
    (rest : List Instr) :
    replace_self_balance (i0 :: i1 :: i2 :: i3 :: rest) =
      Option.map (fun l => AVMOp "SELF_BALANCE" :: l)
        (replace_self_balance rest) := by
  obtain ⟨h0, h1, h1o, h2, h3⟩ := hm
  unfold replace_self_balance
  conv_lhs => rw [replace_self_balance_go]
  rw [dif_pos (by simp)]
  have hg : self_balance_match (i0 :: i1 :: i2 :: i3 :: rest) 0 = some true := by
    unfold self_balance_match
    simp [h0, h1, h1o, h2, h3]
  rw [hg]
  show replace_self_balance_go ([i0, i1, i2, i3] ++ rest)
    (([i0, i1, i2, i3] : List Instr).length + 0) ([] ++ [AVMOp "SELF_BALANCE"]) = _
  rw [replace_go_shift]
  rw [replace_go_out rest 0 ([] ++ [AVMOp "SELF_BALANCE"])]
  cases replace_self_balance_go rest 0 [] <;> simp

theorem replace_deviation (i0 i1 i2 i3 : Instr) (hm : IdiomMatch i0 i1 i2 i3)
    (j : Fin 4) (d : Instr) (hdev : DeviatesAt j d)
    (hlast : j = 3 → d.name ≠ "ADDRESS") :
    replace_self_balance ([i0, i1, i2, i3].set j.val d) =
      some ([i0, i1, i2, i3].set j.val d) := by
  obtain ⟨h0, h1, h1o, h2, h3⟩ := hm
  unfold replace_self_balance
  fin_cases j
  · simp only [DeviatesAt, Fin.isValue, Fin.val_zero, if_pos] at hdev
    simp only [List.set]
    have g0 : self_balance_match [d, i1, i2, i3] 0 = some false := by
      unfold self_balance_match
      simp [hdev]
    have g1 : self_balance_match [d, i1, i2, i3] 1 = some false := by
      unfold self_balance_match
      simp [h1]
    have g2 : self_balance_match [d, i1, i2, i3] 2 = some false := by
      unfold self_balance_match
      simp [h2]
    have g3 : self_balance_match [d, i1, i2, i3] 3 = some false := by
      unfold self_balance_match
      simp [h3]
    rw [go_step_false _ 0 _ (by simp) g0, go_step_false _ 1 _ (by simp) g1,
      go_step_false _ 2 _ (by simp) g2, go_step_false _ 3 _ (by simp) g3,
      go_end _ 4 _ (by simp)]
    simp
  · simp only [DeviatesAt] at hdev
    norm_num at hdev
    simp only [List.set]
    have g0 : self_balance_match [i0, d, i2, i3] 0 = some false := by
      unfold self_balance_match
      by_cases hn : d.name = "PUSH20"
      · have hop : d.operand ≠ some balanceMask := by tauto
        simp [h0, hn, hop]
      · simp [h0, hn]
    have g1 : self_balance_match [i0, d, i2, i3] 1 = some false := by
      unfold self_balance_match
      by_cases ha : d.name = "ADDRESS"
      · simp [ha, h2]
      · simp [ha]
    have g2 : self_balance_match [i0, d, i2, i3] 2 = some false := by
      unfold self_balance_match
      simp [h2]
    have g3 : self_balance_match [i0, d, i2, i3] 3 = some false := by
      unfold self_balance_match
      simp [h3]
    rw [go_step_false _ 0 _ (by simp) g0, go_step_false _ 1 _ (by simp) g1,
      go_step_false _ 2 _ (by simp) g2, go_step_false _ 3 _ (by simp) g3,
      go_end _ 4 _ (by simp)]
    simp
  · simp only [DeviatesAt] at hdev
    norm_num at hdev
    simp only [List.set]
    have g0 : self_balance_match [i0, i1, d, i3] 0 = some false := by
      unfold self_balance_match
      simp [h0, h1, h1o, hdev]
    have g1 : self_balance_match [i0, i1, d, i3] 1 = some false := by
      unfold self_balance_match
      simp [h1]
    have g2 : self_balance_match [i0, i1, d, i3] 2 = some false := by
      unfold self_balance_match
      by_cases ha : d.name = "ADDRESS"
      · simp [ha, h3]
      · simp [ha]
    have g3 : self_balance_match [i0, i1, d, i3] 3 = some false := by
      unfold self_balance_match
      simp [h3]
    rw [go_step_false _ 0 _ (by simp) g0, go_step_false _ 1 _ (by simp) g1,
      go_step_false _ 2 _ (by simp) g2, go_step_false _ 3 _ (by simp) g3,
      go_end _ 4 _ (by simp)]
    simp
  · unfold DeviatesAt at hdev
    have hda : d.name ≠ "ADDRESS" := hlast rfl
    have hdb : d.name ≠ "BALANCE" := by simpa [DeviatesAt] using hdev
    simp only [List.set]
    have g0 : self_balance_match [i0, i1, i2, d] 0 = some false := by
      unfold self_balance_match
      simp [h0, h1, h1o, h2, hdb]
    have g1 : self_balance_match [i0, i1, i2, d] 1 = some false := by
      unfold self_balance_match
      simp [h1]
    have g2 : self_balance_match [i0, i1, i2, d] 2 = some false := by
      unfold self_balance_match
      simp [h2]
    have g3 : self_balance_match [i0, i1, i2, d] 3 = some false := by
      unfold self_balance_match
      simp [hda]
    rw [go_step_false _ 0 _ (by simp) g0, go_step_false _ 1 _ (by simp) g1,
      go_step_false _ 2 _ (by simp) g2, go_step_false _ 3 _ (by simp) g3,
      go_end _ 4 _ (by simp)]
    simp

/-- C4, counterexample: a single-instruction deviation that puts an
instruction named ADDRESS in the final idiom position does NOT leave the
instruction list unchanged: the pass reads past the end of the list and
raises IndexError (modelled as none). -/
theorem C4_counterexample :
    DeviatesAt 3 ⟨"ADDRESS", 0x30, none, 23⟩ ∧
    replace_self_balance
        [⟨"ADDRESS", 0x30, none, 0⟩, ⟨"PUSH20", 0x73, some balanceMask, 1⟩,
         ⟨"AND", 0x16, none, 22⟩, ⟨"ADDRESS", 0x30, none, 23⟩] = none := by
  constructor
  · decide
  · simp [replace_self_balance, replace_self_balance_go, self_balance_match]

/-- C4 (amended): the pass rewrites an occurrence of the exact
four-instruction idiom into the single SELF_BALANCE pseudo-instruction
and continues after it; a single-instruction deviation from the idiom is
left unchanged by the pass PROVIDED the deviation does not place an
instruction named ADDRESS in the final position (that case instead
raises an index error, see the counterexample); and a BALANCE
instruction that is not fused reaches the translator, which fails at
translation time with an error carrying the instruction. -/
theorem C4_self_balance_fusion (i0 i1 i2 i3 : Instr)
    (hm : IdiomMatch i0 i1 i2 i3) (code : List Instr) (contract_id : Nat)
    (jt cs : List (Nat × AVMValue)) :
    (∀ rest : List Instr,
      replace_self_balance (i0 :: i1 :: i2 :: i3 :: rest) =
        Option.map (fun l => AVMOp "SELF_BALANCE" :: l)
          (replace_self_balance rest)) ∧
    (∀ (j : Fin 4) (d : Instr), DeviatesAt j d →
      (j = 3 → d.name ≠ "ADDRESS") →
      replace_self_balance ([i0, i1, i2, i3].set j.val d) =
        some ([i0, i1, i2, i3].set j.val d)) ∧
    (∀ b : Instr, b.name = "BALANCE" →
      run_op code contract_id jt cs b = .error b) :=
  ⟨fun rest => replace_fires i0 i1 i2 i3 hm rest,
    fun j d hdev hlast => replace_deviation i0 i1 i2 i3 hm j d hdev hlast,
    fun b hb => run_op_unhandled code contract_id jt cs b
      (by rw [hb]; decide)⟩

theorem C4_witness :
    IdiomMatch ⟨"ADDRESS", 0x30, none, 0⟩
      ⟨"PUSH20", 0x73, some balanceMask, 1⟩ ⟨"AND", 0x16, none, 22⟩
      ⟨"BALANCE", 0x31, none, 23⟩ ∧
    ((∀ rest : List Instr,
      replace_self_balance (⟨"ADDRESS", 0x30, none, 0⟩ ::
          ⟨"PUSH20", 0x73, some balanceMask, 1⟩ :: ⟨"AND", 0x16, none, 22⟩ ::
          ⟨"BALANCE", 0x31, none, 23⟩ :: rest) =
        Option.map (fun l => AVMOp "SELF_BALANCE" :: l)
          (replace_self_balance rest)) ∧
    (∀ (j : Fin 4) (d : Instr), DeviatesAt j d →
      (j = 3 → d.name ≠ "ADDRESS") →
      replace_self_balance
          ([⟨"ADDRESS", 0x30, none, 0⟩, ⟨"PUSH20", 0x73, some balanceMask, 1⟩,
            ⟨"AND", 0x16, none, 22⟩, ⟨"BALANCE", 0x31, none, 23⟩].set j.val d) =
        some ([⟨"ADDRESS", 0x30, none, 0⟩,
            ⟨"PUSH20", 0x73, some balanceMask, 1⟩, ⟨"AND", 0x16, none, 22⟩,
            ⟨"BALANCE", 0x31, none, 23⟩].set j.val d)) ∧
    (∀ b : Instr, b.name = "BALANCE" →
      run_op [] 1 [] [] b = .error b)) :=
  ⟨by decide, C4_self_balance_fusion _ _ _ _ (by decide) [] 1 [] []⟩

instance instKeyLETotal (α : Type) :
    IsTotal (Nat × α) (fun a b => a.1 ≤ b.1) :=
  ⟨fun a b => Nat.le_total a.1 b.1⟩

instance instKeyLETrans (α : Type) :
    IsTrans (Nat × α) (fun a b => a.1 ≤ b.1) :=
  ⟨fun _ _ _ hab hbc => le_trans hab hbc⟩

/-- Helper: sorting an association list with pairwise-distinct keys by
key yields a strictly ascending key order. -/
theorem pairwise_lt_insertionSort (α : Type) (l : List (Nat × α))
    (hn : (l.map Prod.fst).Nodup) :
    List.Pairwise (fun a b : Nat × α => a.1 < b.1)
      (List.insertionSort (fun a b => a.1 ≤ b.1) l) := by
  have hperm := List.perm_insertionSort (fun a b : Nat × α => a.1 ≤ b.1) l
  have hsorted : List.Pairwise (fun a b : Nat × α => a.1 ≤ b.1)
      (List.insertionSort (fun a b => a.1 ≤ b.1) l) :=
    List.sorted_insertionSort _ l
  have hnodup : ((List.insertionSort (fun a b => a.1 ≤ b.1) l).map
      Prod.fst).Nodup := ((hperm.map Prod.fst).nodup_iff).mpr hn
  have hne : List.Pairwise (fun a b : Nat × α => a.1 ≠ b.1)
      (List.insertionSort (fun a b => a.1 ≤ b.1) l) := by
    rw [List.Nodup, List.pairwise_map] at hnodup
    exact hnodup
  exact (hsorted.and hne).imp (fun hab => lt_of_le_of_ne hab.1 hab.2)

/-- Helper: the jump table of a contract is strictly sorted whenever the
JUMPDEST program counters are pairwise distinct. -/
theorem jump_table_sorted (contract_id : Nat) (code : List Instr)
    (hpc : ((code.filter (fun insn => insn.name == "JUMPDEST")).map
      Instr.pc).Nodup) :
    SortedKeys (jump_table_of contract_id code) := by
  unfold SortedKeys jump_table_of
  apply pairwise_lt_insertionSort
  rw [List.map_map]
  exact hpc

/-- Helper: the code-size table is strictly sorted for distinct ids. -/
theorem code_sizes_sorted (contracts : List (Nat × List Instr))
    (hids : (contracts.map Prod.fst).Nodup) :
    SortedKeys (code_sizes contracts) := by
  unfold SortedKeys code_sizes sorted_contracts
  rw [List.pairwise_map]
  exact pairwise_lt_insertionSort _ contracts hids

/-- Helper: the contract-entry table is strictly sorted for distinct
ids. -/
theorem contract_dispatch_sorted (contracts : List (Nat × List Instr))
    (hids : (contracts.map Prod.fst).Nodup) :
    SortedKeys (contract_dispatch contracts) := by
  unfold SortedKeys contract_dispatch sorted_contracts
  rw [List.pairwise_map]
  exact pairwise_lt_insertionSort _ contracts hids

/-- C8: at the moment each dispatch tree is synthesized, its entry list
is sorted ascending by key with pairwise-distinct keys — the
contract-entry dispatch list and the code-size list under distinct
contract ids (automatic for keys of the raw-code dict), and each
contract's jump table under distinct JUMPDEST program counters.  The
later second append onto contract_dispatch (line 176) happens only after
the tree was built at line 150. -/
theorem C8_tables_sorted (contracts : List (Nat × List Instr))
    (hids : (contracts.map Prod.fst).Nodup) :
    SortedKeys (code_sizes contracts) ∧
    SortedKeys (contract_dispatch contracts) ∧
    (∀ (contract_id : Nat) (code : List Instr),
      ((code.filter (fun insn => insn.name == "JUMPDEST")).map
        Instr.pc).Nodup →
      SortedKeys (jump_table_of contract_id code)) :=
  ⟨code_sizes_sorted contracts hids, contract_dispatch_sorted contracts hids,
    fun contract_id code hpc => jump_table_sorted contract_id code hpc⟩

theorem C8_witness :
    (([(5, [⟨"JUMPDEST", 0x5b, none, 4⟩]), (2, [])] :
        List (Nat × List Instr)).map Prod.fst).Nodup ∧
    (SortedKeys (code_sizes [(5, [⟨"JUMPDEST", 0x5b, none, 4⟩]), (2, [])]) ∧
    SortedKeys (contract_dispatch
      [(5, [⟨"JUMPDEST", 0x5b, none, 4⟩]), (2, [])]) ∧
    (∀ (contract_id : Nat) (code : List Instr),
      ((code.filter (fun insn => insn.name == "JUMPDEST")).map
        Instr.pc).Nodup →
      SortedKeys (jump_table_of contract_id code))) :=
  ⟨by decide, C8_tables_sorted _ (by decide)⟩

/-- Helper: after a successful lookup, the JUMP epilogue transfers to the label. -/
theorem exec_jump_tail_found (l : AVMLabel) (s : List AVMValue) :
    exec [.dup0, .tnewn 0, .eq, .ifelse [.halt] [.jump]]
      (.codePoint l :: s) = some (.jumped l s) := by
  simp [exec]

theorem exec_jump_tail_missing (s : List AVMValue) :
    exec [.dup0, .tnewn 0, .eq, .ifelse [.halt] [.jump]]
      (.tuple 0 :: s) = some (.halted (.tuple 0 :: s)) := by
  simp [exec]

theorem exec_jumpi_tail_found (l : AVMLabel) (cond : Nat) (s : List AVMValue) :
    exec [.dup0, .tnewn 0, .eq, .ifelse [.halt] [.cjump]]
      (.codePoint l :: .int cond :: s) =
      some (if cond ≠ 0 then .jumped l s else .next s) := by
  by_cases hc : cond = 0 <;> simp [exec, hc]

theorem exec_jumpi_tail_missing (s : List AVMValue) :
    exec [.dup0, .tnewn 0, .eq, .ifelse [.halt] [.cjump]]
      (.tuple 0 :: s) = some (.halted (.tuple 0 :: s)) := by
  simp [exec]

theorem run_op_jump (code : List Instr) (contract_id : Nat)
    (jt cs : List (Nat × AVMValue)) (jinstr : Instr)
    (hj : jinstr.name = "JUMP") :
    run_op code contract_id jt cs jinstr =
      .ok (make_bst_lookup jt ++
        [.dup0, .tnewn 0, .eq, .ifelse [.halt] [.jump]]) := by
  simp [run_op, hj]

theorem run_op_jumpi (code : List Instr) (contract_id : Nat)
    (jt cs : List (Nat × AVMValue)) (iinstr : Instr)
    (hi : iinstr.name = "JUMPI") :
    run_op code contract_id jt cs iinstr =
      .ok (make_bst_lookup jt ++
        [.dup0, .tnewn 0, .eq, .ifelse [.halt] [.cjump]]) := by
  simp [run_op, hi]

theorem jump_block_found (jt : List (Nat × AVMValue)) (hs : SortedKeys jt)
    (d : Nat) (s : List AVMValue) (l : AVMLabel)
    (hl : lookupVal d jt = some (.codePoint l)) :
    exec (make_bst_lookup jt ++
        [.dup0, .tnewn 0, .eq, .ifelse [.halt] [.jump]])
      (.int d :: s) = some (.jumped l s) := by
  have hne : jt ≠ [] := by
    intro h
    rw [h] at hl
    exact Option.noConfusion hl
  rw [exec_make_bst_lookup jt hs hne _ d s, hl]
  exact exec_jump_tail_found l s

theorem jump_block_missing (jt : List (Nat × AVMValue)) (hs : SortedKeys jt)
    (d : Nat) (s : List AVMValue) (hl : lookupVal d jt = none) :
    ∃ s2, exec (make_bst_lookup jt ++
        [.dup0, .tnewn 0, .eq, .ifelse [.halt] [.jump]])
      (.int d :: s) = some (.halted s2) := by
  by_cases hne : jt = []
  · subst hne
    refine ⟨.tuple 0 :: .int d :: s, ?_⟩
    simp [make_bst_lookup, handle_bad_jump, exec]
  · rw [exec_make_bst_lookup jt hs hne _ d s, hl]
    exact ⟨.tuple 0 :: s, exec_jump_tail_missing s⟩

theorem jumpi_block_found (jt : List (Nat × AVMValue)) (hs : SortedKeys jt)
    (d cond : Nat) (s : List AVMValue) (l : AVMLabel)
    (hl : lookupVal d jt = some (.codePoint l)) :
    exec (make_bst_lookup jt ++
        [.dup0, .tnewn 0, .eq, .ifelse [.halt] [.cjump]])
      (.int d :: .int cond :: s) =
      some (if cond ≠ 0 then .jumped l s else .next s) := by
  have hne : jt ≠ [] := by
    intro h
    rw [h] at hl
    exact Option.noConfusion hl
  rw [exec_make_bst_lookup jt hs hne _ d (.int cond :: s), hl]
  exact exec_jumpi_tail_found l cond s

theorem jumpi_block_missing (jt : List (Nat × AVMValue)) (hs : SortedKeys jt)
    (d cond : Nat) (s : List AVMValue) (hl : lookupVal d jt = none) :
    ∃ s2, exec (make_bst_lookup jt ++
        [.dup0, .tnewn 0, .eq, .ifelse [.halt] [.cjump]])
      (.int d :: .int cond :: s) = some (.halted s2) := by
  by_cases hne : jt = []
  · subst hne
    refine ⟨.tuple 0 :: .int d :: .int cond :: s, ?_⟩
    simp [make_bst_lookup, handle_bad_jump, exec]
  · rw [exec_make_bst_lookup jt hs hne _ d (.int cond :: s), hl]
    exact ⟨.tuple 0 :: .int cond :: s, exec_jumpi_tail_missing (.int cond :: s)⟩

/-- The contract of the spec example for claim C3: jump destinations at
program counters 10, 20 and 30. -/
def exampleJumpCode : List Instr :=
  [⟨"JUMPDEST", 0x5b, none, 10⟩, ⟨"JUMPDEST", 0x5b, none, 20⟩,
   ⟨"JUMPDEST", 0x5b, none, 30⟩]

/-- C3: for JUMP and JUMPI the translated block first runs this
contract's jump-destination dispatch lookup on the destination program
counter; when the lookup yields the sentinel the block halts, and
otherwise it transfers control to the resolved label — unconditionally
for JUMP, and conditionally on the popped boolean for JUMPI (falling
through when the boolean is zero).  For the example contract with jump
destinations {10, 20, 30}, a JUMP to 20 reaches the label
jumpdest_<id>_20 and a JUMP to 15 halts. -/
theorem C3_jump_translation (code : List Instr) (contract_id : Nat)
    (cs : List (Nat × AVMValue))
    (hpc : ((code.filter (fun insn => insn.name == "JUMPDEST")).map
      Instr.pc).Nodup)
    (jinstr : Instr) (hj : jinstr.name = "JUMP")
    (iinstr : Instr) (hi : iinstr.name = "JUMPI")
    (d cond : Nat) (s : List AVMValue) :
    (∃ jb, run_op code contract_id (jump_table_of contract_id code) cs
        jinstr = .ok jb ∧
      (∀ l : AVMLabel,
        lookupVal d (jump_table_of contract_id code) =
          some (.codePoint l) →
        exec jb (.int d :: s) = some (.jumped l s)) ∧
      (lookupVal d (jump_table_of contract_id code) = none →
        ∃ s2, exec jb (.int d :: s) = some (.halted s2))) ∧
    (∃ ib, run_op code contract_id (jump_table_of contract_id code) cs
        iinstr = .ok ib ∧
      (∀ l : AVMLabel,
        lookupVal d (jump_table_of contract_id code) =
          some (.codePoint l) →
        exec ib (.int d :: .int cond :: s) =
          some (if cond ≠ 0 then .jumped l s else .next s)) ∧
      (lookupVal d (jump_table_of contract_id code) = none →
        ∃ s2, exec ib (.int d :: .int cond :: s) = some (.halted s2))) ∧
    (∃ jb2, run_op exampleJumpCode 1 (jump_table_of 1 exampleJumpCode) cs
        ⟨"JUMP", 0x56, none, 0⟩ = .ok jb2 ∧
      exec jb2 [.int 20] = some (.jumped (.jumpdest 1 20) []) ∧
      ∃ s2, exec jb2 [.int 15] = some (.halted s2)) := by
  have hs := jump_table_sorted contract_id code hpc
  refine ⟨⟨_, run_op_jump code contract_id _ cs jinstr hj, ?_, ?_⟩,
    ⟨_, run_op_jumpi code contract_id _ cs iinstr hi, ?_, ?_⟩,
    ⟨_, run_op_jump exampleJumpCode 1 _ cs _ rfl, ?_, ?_⟩⟩
  · intro l hl
    exact jump_block_found _ hs d s l hl
  · intro hl
    exact jump_block_missing _ hs d s hl
  · intro l hl
    exact jumpi_block_found _ hs d cond s l hl
  · intro hl
    exact jumpi_block_missing _ hs d cond s hl
  · exact jump_block_found _ (by decide) 20 [] _ (by decide)
  · exact jump_block_missing _ (by decide) 15 [] (by decide)

theorem C3_witness :
    ((exampleJumpCode.filter (fun insn => insn.name == "JUMPDEST")).map
      Instr.pc).Nodup ∧
    (⟨"JUMP", 0x56, none, 0⟩ : Instr).name = "JUMP" ∧
    (⟨"JUMPI", 0x57, none, 0⟩ : Instr).name = "JUMPI" ∧
    ((∃ jb, run_op exampleJumpCode 1 (jump_table_of 1 exampleJumpCode) []
        ⟨"JUMP", 0x56, none, 0⟩ = .ok jb ∧
      (∀ l : AVMLabel,
        lookupVal 20 (jump_table_of 1 exampleJumpCode) =
          some (.codePoint l) →
        exec jb (.int 20 :: []) = some (.jumped l [])) ∧
      (lookupVal 20 (jump_table_of 1 exampleJumpCode) = none →
        ∃ s2, exec jb (.int 20 :: []) = some (.halted s2))) ∧
    (∃ ib, run_op exampleJumpCode 1 (jump_table_of 1 exampleJumpCode) []
        ⟨"JUMPI", 0x57, none, 0⟩ = .ok ib ∧
      (∀ l : AVMLabel,
        lookupVal 20 (jump_table_of 1 exampleJumpCode) =
          some (.codePoint l) →
        exec ib (.int 20 :: .int 1 :: []) =
          some (if (1 : Nat) ≠ 0 then .jumped l [] else .next [])) ∧
      (lookupVal 20 (jump_table_of 1 exampleJumpCode) = none →
        ∃ s2, exec ib (.int 20 :: .int 1 :: []) = some (.halted s2))) ∧
    (∃ jb2, run_op exampleJumpCode 1 (jump_table_of 1 exampleJumpCode) []
        ⟨"JUMP", 0x56, none, 0⟩ = .ok jb2 ∧
      exec jb2 [.int 20] = some (.jumped (.jumpdest 1 20) []) ∧
      ∃ s2, exec jb2 [.int 15] = some (.halted s2))) :=
  ⟨by decide, rfl, rfl,
    C3_jump_translation exampleJumpCode 1 [] (by decide)
      ⟨"JUMP", 0x56, none, 0⟩ rfl ⟨"JUMPI", 0x57, none, 0⟩ rfl 20 1 []⟩

/-- Helper: in a duplicate-free table a member key is found with its value. -/
theorem lookupVal_of_mem_nodup (k : Nat) (v : AVMValue)
    (l : List (Nat × AVMValue)) (hn : (l.map Prod.fst).Nodup)
    (hm : (k, v) ∈ l) : lookupVal k l = some v := by
  induction l with
  | nil => simp at hm
  | cons p rest ih =>
    rcases List.mem_cons.mp hm with heq | hmem
    · rw [← heq]
      simp [lookupVal]
    · have hk : k ∈ rest.map Prod.fst :=
        List.mem_map.mpr ⟨(k, v), hmem, rfl⟩
      have hcons : (p.1 :: rest.map Prod.fst).Nodup := by simpa using hn
      have hp : p.1 ∉ rest.map Prod.fst := (List.nodup_cons.mp hcons).1
      have hne : ¬ (k = p.1) := fun h => hp (h ▸ hk)
      cases p with
      | mk k0 v0 =>
        simp only [lookupVal]
        rw [if_neg hne]
        exact ih (List.nodup_cons.mp hcons).2 hmem

theorem code_sizes_keys_nodup (contracts : List (Nat × List Instr))
    (hids : (contracts.map Prod.fst).Nodup) :
    ((code_sizes contracts).map Prod.fst).Nodup := by
  unfold code_sizes sorted_contracts
  rw [List.map_map]
  have hperm := (List.perm_insertionSort
    (fun a b : Nat × List Instr => a.1 ≤ b.1) contracts).map
    (fun c : Nat × List Instr => c.1)
  exact hperm.nodup_iff.mpr (by simpa using hids)

theorem code_sizes_lookup (contracts : List (Nat × List Instr))
    (hids : (contracts.map Prod.fst).Nodup) (cid : Nat) (raw : List Instr)
    (hm : (cid, raw) ∈ contracts) :
    lookupVal cid (code_sizes contracts) = some (.int raw.length) := by
  apply lookupVal_of_mem_nodup _ _ _ (code_sizes_keys_nodup contracts hids)
  unfold code_sizes sorted_contracts
  exact List.mem_map.mpr ⟨(cid, raw),
    ((List.perm_insertionSort _ contracts).mem_iff).mpr hm, rfl⟩

theorem exec_extcodesize_tail (n : Nat) (s : List AVMValue) :
    exec [.dup0, .tnewn 0, .eq, .ifelse [.halt] []] (.int n :: s) =
      some (.next (.int n :: s)) := by
  simp [exec]

/-- C9: the global code-length dispatch list maps each contract id to the
instruction count of the RAW disassembled code (recorded at lines
142-144, before metadata stripping and self-balance fusion), while
CODESIZE inside the contract pushes the length of the code after both
normalization passes (lines 200-201 normalize, line 286 pushes
len(code)); EXTCODESIZE applied to the contract's own id therefore
pushes the raw count, and whenever normalization removed at least one
instruction that count is strictly larger than what CODESIZE pushes. -/
theorem C9_codesize_vs_extcodesize (contracts : List (Nat × List Instr))
    (hids : (contracts.map Prod.fst).Nodup) (cid : Nat) (raw : List Instr)
    (hm : (cid, raw) ∈ contracts) (norm : List Instr)
    (_hnorm : replace_self_balance (remove_metadata raw) = some norm)
    (hshrunk : norm.length < raw.length)
    (cinstr : Instr) (hc : cinstr.name = "CODESIZE")
    (einstr : Instr) (he : einstr.name = "EXTCODESIZE")
    (jt : List (Nat × AVMValue)) (s : List AVMValue) :
    lookupVal cid (code_sizes contracts) = some (.int raw.length) ∧
    run_op norm cid jt (code_sizes contracts) cinstr =
      .ok [.push (.int norm.length)] ∧
    (∃ eb, run_op norm cid jt (code_sizes contracts) einstr = .ok eb ∧
      exec eb (.int cid :: s) = some (.next (.int raw.length :: s))) ∧
    norm.length < raw.length := by
  have hlook := code_sizes_lookup contracts hids cid raw hm
  refine ⟨hlook, by simp [run_op, hc],
    ⟨make_bst_lookup (code_sizes contracts) ++
      [.dup0, .tnewn 0, .eq, .ifelse [.halt] []],
      by simp [run_op, he], ?_⟩, hshrunk⟩
  have hsorted := code_sizes_sorted contracts hids
  have hne : code_sizes contracts ≠ [] := by
    intro h
    rw [h] at hlook
    simp [lookupVal] at hlook
  rw [exec_make_bst_lookup _ hsorted hne _ cid s, hlook]
  exact exec_extcodesize_tail raw.length s

theorem C9_witness :
    (([(5, [⟨"STOP", 0, none, 0⟩, ⟨"LOG1", 0xa1, none, 1⟩,
        ⟨"PUSH6", 0x65, some 3, 2⟩])] :
        List (Nat × List Instr)).map Prod.fst).Nodup ∧
    ((5 : Nat), [⟨"STOP", 0, none, 0⟩, ⟨"LOG1", 0xa1, none, 1⟩,
        ⟨"PUSH6", 0x65, some 3, 2⟩]) ∈
      ([(5, [⟨"STOP", 0, none, 0⟩, ⟨"LOG1", 0xa1, none, 1⟩,
        ⟨"PUSH6", 0x65, some 3, 2⟩])] : List (Nat × List Instr)) ∧
    replace_self_balance (remove_metadata [⟨"STOP", 0, none, 0⟩,
      ⟨"LOG1", 0xa1, none, 1⟩, ⟨"PUSH6", 0x65, some 3, 2⟩]) =
      some [⟨"STOP", 0, none, 0⟩] ∧
    ([⟨"STOP", 0, none, 0⟩] : List Instr).length <
      ([⟨"STOP", 0, none, 0⟩, ⟨"LOG1", 0xa1, none, 1⟩,
        ⟨"PUSH6", 0x65, some 3, 2⟩] : List Instr).length ∧
    (lookupVal 5 (code_sizes [(5, [⟨"STOP", 0, none, 0⟩,
        ⟨"LOG1", 0xa1, none, 1⟩, ⟨"PUSH6", 0x65, some 3, 2⟩])]) =
      some (.int ([⟨"STOP", 0, none, 0⟩, ⟨"LOG1", 0xa1, none, 1⟩,
        ⟨"PUSH6", 0x65, some 3, 2⟩] : List Instr).length) ∧
    run_op [⟨"STOP", 0, none, 0⟩] 5 []
        (code_sizes [(5, [⟨"STOP", 0, none, 0⟩, ⟨"LOG1", 0xa1, none, 1⟩,
          ⟨"PUSH6", 0x65, some 3, 2⟩])]) ⟨"CODESIZE", 0x38, none, 0⟩ =
      .ok [.push (.int ([⟨"STOP", 0, none, 0⟩] : List Instr).length)] ∧
    (∃ eb, run_op [⟨"STOP", 0, none, 0⟩] 5 []
        (code_sizes [(5, [⟨"STOP", 0, none, 0⟩, ⟨"LOG1", 0xa1, none, 1⟩,
          ⟨"PUSH6", 0x65, some 3, 2⟩])]) ⟨"EXTCODESIZE", 0x3b, none, 1⟩ =
        .ok eb ∧
      exec eb (.int 5 :: []) =
        some (.next (.int ([⟨"STOP", 0, none, 0⟩, ⟨"LOG1", 0xa1, none, 1⟩,
          ⟨"PUSH6", 0x65, some 3, 2⟩] : List Instr).length :: []))) ∧
    ([⟨"STOP", 0, none, 0⟩] : List Instr).length <
      ([⟨"STOP", 0, none, 0⟩, ⟨"LOG1", 0xa1, none, 1⟩,
        ⟨"PUSH6", 0x65, some 3, 2⟩] : List Instr).length) :=
  ⟨by decide, by decide,
    by simp [remove_metadata, remove_metadata_go, markerAt,
      replace_self_balance, replace_self_balance_go, self_balance_match],
    by decide,
    C9_codesize_vs_extcodesize _ (by decide) 5 _ (by decide) _
      (by simp [remove_metadata, remove_metadata_go, markerAt,
        replace_self_balance, replace_self_balance_go, self_balance_match])
      (by decide) _ rfl _ rfl [] []⟩
